import Mathlib

/-!
# Verification of the `sse::Packer` rectangle-packing engine

Shallow embedding of `src/unnamed/part_000` (Packer.hpp, the `Packer` class
and its inner binary-tree `Node` struct) into Lean 4.  Dimensions and
coordinates are modelled as rationals (the C++ uses `double`; all the
packing logic is order/arithmetic on finite values).  The inline `Node`
member functions (`add_object`, `fits`, `full`, `leaf`, the constructor)
are translated directly from the header.  The out-of-line members
(`pack`, `arrange`, `insert_search`, `grow_up`, `grow_right`,
`translate`) are declared in the header but their implementation file is
not part of the sources; those are modelled from the specification, as
marked on each definition.
-/

set_option autoImplicit false

namespace SSE

/-- A packable object, as seen by the packer: an identity (the C++ packer
holds `Object*` pointers; the id stands for the pointer identity) and the
two footprint accessors `width()` / `length()`. -/
structure Obj where
  id : Nat
  width : ℚ
  length : ℚ
  deriving DecidableEq, Repr

/-- Binary tree node, from `Packer::Node`: position `(x, y)`, extents
`(width, length)`, two individually-nullable children `up` and `right`
(`node_ptr up{nullptr}; node_ptr right{nullptr};`), and an optional
contained object (`Object *object{nullptr}`). -/
inductive Node : Type where
  | mk (x y width length : ℚ) (up : Option Node) (right : Option Node)
       (object : Option Obj) : Node

namespace Node

def x : Node → ℚ
  | .mk v _ _ _ _ _ _ => v

def y : Node → ℚ
  | .mk _ v _ _ _ _ _ => v

def width : Node → ℚ
  | .mk _ _ v _ _ _ _ => v

def length : Node → ℚ
  | .mk _ _ _ v _ _ _ => v

def up : Node → Option Node
  | .mk _ _ _ _ v _ _ => v

def right : Node → Option Node
  | .mk _ _ _ _ _ v _ => v

def object : Node → Option Obj
  | .mk _ _ _ _ _ _ v => v

/-- Source `Node::add_object`: record the object, then create both children:
`up = Node(x, y + o.length, width, length - o.length)` and
`right = Node(x + o.length, y, width - o.width, length)`.
Translated verbatim from the header (note: `right`'s x advances by the
object's *length* while its width shrinks by the object's *width*). -/
def add_object (n : Node) (o : Obj) : Node :=
  .mk n.x n.y n.width n.length
    (some (.mk n.x (n.y + o.length) n.width (n.length - o.length) none none none))
    (some (.mk (n.x + o.length) n.y (n.width - o.width) n.length none none none))
    (some o)

/-- Source `Node::fits`: `(o->length() <= length) && (o->width() <= width)`. -/
def fits (n : Node) (o : Obj) : Prop :=
  o.length ≤ n.length ∧ o.width ≤ n.width

instance (n : Node) (o : Obj) : Decidable (n.fits o) :=
  inferInstanceAs (Decidable (_ ∧ _))

/-- Source `Node::full`: `object != nullptr`. -/
def full (n : Node) : Bool :=
  n.object.isSome

/-- Source `Node::leaf`: `up == nullptr` (only the `up` child is inspected). -/
def leaf (n : Node) : Bool :=
  n.up.isNone

end Node

/-- Modelled from the spec: §4.1 `find_region` / `insert_search` combined
with §4.2 `place_in_region` (the header declares `Packer::insert_search`
but its implementation file is missing from the sources).  Depth-first
search: at a node with both children present, recurse into `right` first,
then `up`; at a childless node, succeed when the node is unoccupied and
the object fits, placing it via the source-translated `Node.add_object`;
otherwise fail.  Returns the updated tree on success, `none` on failure
(search alone mutates nothing). -/
def insertItem : Node → Obj → Option Node
  | .mk x y w l (some u) (some r) obj, o =>
    match insertItem r o with
    | some r2 => some (.mk x y w l (some u) (some r2) obj)
    | none =>
      match insertItem u o with
      | some u2 => some (.mk x y w l (some u2) (some r) obj)
      | none => none
  | .mk x y w l none right obj, o =>
    let n : Node := .mk x y w l none right obj
    if n.full = false ∧ n.fits o then some (n.add_object o) else none
  | .mk _ _ _ _ (some _) none _, _ => none

/-- Modelled from the spec: §4.3 `grow_up` (header declares
`Packer::grow_up` without a body).  New root from `(0,0)` to
`(max(current_width, w), current_length + l)`; old root becomes the
`right` child (unchanged position); a fresh region sized to the growth,
spanning the full new width, becomes the `up` child at
`(0, current_length)`. -/
def grow_up (root : Node) (w l : ℚ) : Node :=
  .mk 0 0 (max root.width w) (root.length + l)
    (some (.mk 0 root.length (max root.width w) l none none none))
    (some root)
    none

/-- Modelled from the spec: §4.3 `grow_right` (header declares
`Packer::grow_right` without a body), symmetric to `grow_up`: new root
from `(0,0)` to `(current_width + w, max(current_length, l))`; old root
becomes the `up` child; a fresh region at `(current_width, 0)` spanning
the full new length becomes the `right` child. -/
def grow_right (root : Node) (w l : ℚ) : Node :=
  .mk 0 0 (root.width + w) (max root.length l)
    (some root)
    (some (.mk root.width 0 w (max root.length l) none none none))
    none

/-- The two candidate growth moves. -/
inductive GrowDir : Type where
  | up
  | right
  deriving DecidableEq, Repr

/-- Modelled from the spec: the growth-direction heuristic of §4.3.
Simulate both growths against the item's required extents, take the one
minimizing the skew `|new_width − new_length|`; on a tie prefer growing
whichever axis is currently smaller (width smaller → grow right, length
smaller → grow up). -/
def chooseGrow (cw cl w l : ℚ) : GrowDir :=
  let skewUp := |max cw w - (cl + l)|
  let skewRight := |cw + w - max cl l|
  if skewUp < skewRight then .up
  else if skewRight < skewUp then .right
  else if cw < cl then .right
  else .up

/-- Modelled from the spec: one growth step for an item that fit nowhere,
applying the chosen move of `chooseGrow` with the item's extents. -/
def grow (root : Node) (o : Obj) : Node :=
  match chooseGrow root.width root.length o.width o.length with
  | .up => grow_up root o.width o.length
  | .right => grow_right root o.width o.length

/-- Modelled from the spec: §4.4, placing one item into the current tree
state.  An empty tree is seeded with a root exactly the item's size (the
single-item bin is exactly the item, §8).  Otherwise: search-and-place;
on failure grow once, then retry the search once; a second failure is
fatal (`GrowthFailure`, modelled as `Except.error`). -/
def packItem (root : Option Node) (o : Obj) : Except Unit Node :=
  match root with
  | none =>
    let seed : Node := .mk 0 0 o.width o.length none none none
    match insertItem seed o with
    | some t => .ok t
    | none => .error ()
  | some t =>
    match insertItem t o with
    | some t2 => .ok t2
    | none =>
      match insertItem (grow t o) o with
      | some t2 => .ok t2
      | none => .error ()

/-- Modelled from the spec: §4.4 `Packer::pack` over the whole item
sequence, threading the tree root (header declares `pack` without a
body; the code performs no validation of item extents — the header's
`@bug` list records the missing bounds checks). -/
def packTree : Option Node → List Obj → Except Unit (Option Node)
  | root, [] => .ok root
  | root, o :: os =>
    match packItem root o with
    | .ok t => packTree (some t) os
    | .error e => .error e

/-- Dimensions returned by `pack()`: the final bin dimensions, read off the root
(`(0, 0)` for the empty tree). -/
def binDims (root : Option Node) : ℚ × ℚ :=
  match root with
  | none => (0, 0)
  | some t => (t.width, t.length)

/-- Modelled from the spec: §4.5 `arrange` / `Packer::translate` (bodies
missing from the sources).  Depth-first traversal; at every occupied
node emit the `place` call `(object id, node.x + offset_x,
node.y + offset_y)`, then recurse into `up` and `right`.  The returned
list is the sequence of `place` calls. -/
def translateCalls : Node → ℚ → ℚ → List (Nat × ℚ × ℚ)
  | .mk x y _ _ up right obj, ox, oy =>
    (match obj with
     | some o => [(o.id, x + ox, y + oy)]
     | none => []) ++
    (match up with
     | some u => translateCalls u ox oy
     | none => []) ++
    (match right with
     | some r => translateCalls r ox oy
     | none => [])

/-- Modelled from the spec: `Packer::arrange(offset_x, offset_y)` — a
no-op on the empty tree, otherwise the traversal of `translateCalls`
from the root. -/
def arrangeCalls (root : Option Node) (ox oy : ℚ) : List (Nat × ℚ × ℚ) :=
  match root with
  | none => []
  | some t => translateCalls t ox oy

/-- One whole run: `pack()` (returning the bin dimensions) followed by
`arrange(offset_x, offset_y)` (returning the emitted `place` calls). -/
def packArrange (os : List Obj) (ox oy : ℚ) :
    Except Unit ((ℚ × ℚ) × List (Nat × ℚ × ℚ)) :=
  (packTree none os).map fun r => (binDims r, arrangeCalls r ox oy)

/-- A per-node predicate holding at every node of the tree. -/
def Node.allP (p : Node → Prop) : Node → Prop
  | .mk x y w l up right obj =>
    p (.mk x y w l up right obj) ∧
    (∀ u, up = some u → u.allP p) ∧
    (∀ r, right = some r → r.allP p)

/-- Lift a per-node predicate to a possibly empty tree. -/
def treeAllP (p : Node → Prop) : Option Node → Prop
  | none => True
  | some t => t.allP p

/-- Every node of the tree, in preorder (the node itself, then the nodes
of the `up` subtree, then those of the `right` subtree). -/
def Node.subnodes : Node → List Node
  | .mk x y w l up right obj =>
    Node.mk x y w l up right obj ::
    ((match up with
      | some u => u.subnodes
      | none => []) ++
     (match right with
      | some r => r.subnodes
      | none => []))

/-- The children of a node are created in pairs: `up` is null exactly
when `right` is (claim C10's per-node invariant). -/
def paired (n : Node) : Prop :=
  n.up = none ↔ n.right = none

/-- A node holding an object has both children present (claim C3's
per-node invariant). -/
def occupiedSplit (n : Node) : Prop :=
  n.full = true → n.up ≠ none ∧ n.right ≠ none

/-- A node's extents are non-negative (claim C4's per-node invariant). -/
def nonnegExt (n : Node) : Prop :=
  0 ≤ n.width ∧ 0 ≤ n.length

/-- Two axis-aligned rectangles, given by origin and extents, overlap:
each one's interior meets the other (touching edges do not count). -/
def rectsOverlap (x1 y1 w1 l1 x2 y2 w2 l2 : ℚ) : Prop :=
  x1 < x2 + w2 ∧ x2 < x1 + w1 ∧ y1 < y2 + l2 ∧ y2 < y1 + l1

/-- Test fixture: a 5×5 item. -/
def oA1 : Obj := ⟨1, 5, 5⟩

/-- Test fixture: a wide flat item (width 4, length 2). -/
def oA2 : Obj := ⟨2, 4, 2⟩

/-- Test fixture: a 1×1 item. -/
def oA3 : Obj := ⟨3, 1, 1⟩

/-- Tree after packing `oA1` into a fresh 5×5 bin. -/
def treeA1 : Node :=
  .mk 0 0 5 5 (some (.mk 0 5 5 0 none none none))
    (some (.mk 5 0 0 5 none none none)) (some oA1)

/-- The fresh strip created by growing `treeA1` upward for `oA2`. -/
def freshA2 : Node := .mk 0 5 5 2 none none none

/-- Tree after the upward growth triggered by `oA2`. -/
def treeA1g : Node := .mk 0 0 5 7 (some freshA2) (some treeA1) none

/-- The strip `freshA2` once `oA2` is placed in it. -/
def regA2 : Node :=
  .mk 0 5 5 2 (some (.mk 0 7 5 0 none none none))
    (some (.mk 2 5 1 2 none none none)) (some oA2)

/-- Tree after packing `oA1` and `oA2`. -/
def treeA2 : Node := .mk 0 0 5 7 (some regA2) (some treeA1) none

/-- The node holding `oA3`, placed inside the right leftover of `regA2`. -/
def regA3 : Node :=
  .mk 2 5 1 2 (some (.mk 2 6 1 1 none none none))
    (some (.mk 3 5 0 2 none none none)) (some oA3)

/-- The strip `regA2` once `oA3` is placed in its right leftover. -/
def regA2p : Node :=
  .mk 0 5 5 2 (some (.mk 0 7 5 0 none none none)) (some regA3) (some oA2)

/-- Final tree of the three-item run `[oA1, oA2, oA3]`. -/
def treeA3 : Node := .mk 0 0 5 7 (some regA2p) (some treeA1) none

/-- Test fixture: a degenerate item with zero width (an InvalidItem in
the sense of the spec). -/
def oB : Obj := ⟨1, 0, 5⟩

/-- Tree produced by packing the degenerate item `oB`. -/
def treeB : Node :=
  .mk 0 0 0 5 (some (.mk 0 5 0 0 none none none))
    (some (.mk 5 0 0 5 none none none)) (some oB)

/-- Preservation of a nodewise invariant by search-and-place: if `p` is
insensitive to the contents (not the presence) of children, and splitting
an unoccupied fitting node yields nodes satisfying `p`, then a successful
`insertItem` preserves `Node.allP p`. -/
theorem insertItem_allP (p : Node → Prop)
    (hrepl : ∀ x y w l (u r u2 r2 : Node) obj,
      p (.mk x y w l (some u) (some r) obj) → p (.mk x y w l (some u2) (some r2) obj))
    (hsplit : ∀ x y w l (right : Option Node) obj (o : Obj),
      Node.full (.mk x y w l none right obj) = false →
      Node.fits (.mk x y w l none right obj) o →
      p (.mk x y w l none right obj) →
      Node.allP p (Node.add_object (.mk x y w l none right obj) o)) :
    ∀ (n : Node) (o : Obj) (t2 : Node), insertItem n o = some t2 → n.allP p → t2.allP p
  | .mk x y w l (some u) (some r) obj, o, t2, hins, hall => by
    rw [insertItem] at hins
    rw [Node.allP] at hall
    obtain ⟨hp, hu, hr⟩ := hall
    cases hr2 : insertItem r o with
    | some r2 =>
      rw [hr2] at hins
      simp only [Option.some.injEq] at hins
      subst hins
      rw [Node.allP]
      refine ⟨hrepl x y w l u r u r2 obj hp, ?_, ?_⟩
      · intro u2 h2
        cases h2
        exact hu u rfl
      · intro r3 h3
        cases h3
        exact insertItem_allP p hrepl hsplit r o r2 hr2 (hr r rfl)
    | none =>
      rw [hr2] at hins
      cases hu2 : insertItem u o with
      | some u2 =>
        rw [hu2] at hins
        simp only [Option.some.injEq] at hins
        subst hins
        rw [Node.allP]
        refine ⟨hrepl x y w l u r u2 r obj hp, ?_, ?_⟩
        · intro u3 h3
          cases h3
          exact insertItem_allP p hrepl hsplit u o u2 hu2 (hu u rfl)
        · intro r3 h3
          cases h3
          exact hr r rfl
      | none =>
        rw [hu2] at hins
        exact absurd hins (by simp)
  | .mk x y w l none right obj, o, t2, hins, hall => by
    rw [insertItem] at hins
    rw [Node.allP] at hall
    by_cases hc : Node.full (.mk x y w l none right obj) = false ∧
        Node.fits (.mk x y w l none right obj) o
    · rw [if_pos hc] at hins
      simp only [Option.some.injEq] at hins
      subst hins
      exact hsplit x y w l right obj o hc.1 hc.2 hall.1
    · rw [if_neg hc] at hins
      exact absurd hins (by simp)
  | .mk _ _ _ _ (some _) none _, o, t2, hins, _ => by
    rw [insertItem] at hins
    exact absurd hins (by simp)

/-- A nodewise invariant holds of a childless, unoccupied node as soon as
it holds of the node itself. -/
theorem allP_leafNode (p : Node → Prop) (x y w l : ℚ)
    (h : p (.mk x y w l none none none)) :
    Node.allP p (.mk x y w l none none none) := by
  rw [Node.allP]
  exact ⟨h, by simp, by simp⟩

/-- A nodewise invariant is preserved by a growth step as soon as it
holds of the two candidate new roots and the two candidate fresh
regions. -/
theorem grow_allP (p : Node → Prop) (t : Node) (o : Obj) (ht : t.allP p)
    (hu : p (grow_up t o.width o.length))
    (huf : p (.mk 0 t.length (max t.width o.width) o.length none none none))
    (hr : p (grow_right t o.width o.length))
    (hrf : p (.mk t.width 0 o.width (max t.length o.length) none none none)) :
    (grow t o).allP p := by
  rw [grow.eq_def]
  set d := chooseGrow t.width t.length o.width o.length with hd
  clear_value d
  cases d with
  | up =>
    show (grow_up t o.width o.length).allP p
    rw [grow_up] at hu ⊢
    rw [Node.allP]
    refine ⟨hu, ?_, ?_⟩
    · intro u h2
      simp only [Option.some.injEq] at h2
      subst h2
      exact allP_leafNode p _ _ _ _ huf
    · intro r h2
      simp only [Option.some.injEq] at h2
      subst h2
      exact ht
  | right =>
    show (grow_right t o.width o.length).allP p
    rw [grow_right] at hr ⊢
    rw [Node.allP]
    refine ⟨hr, ?_, ?_⟩
    · intro u h2
      simp only [Option.some.injEq] at h2
      subst h2
      exact ht
    · intro r h2
      simp only [Option.some.injEq] at h2
      subst h2
      exact allP_leafNode p _ _ _ _ hrf

/-- A nodewise invariant established by seeding, splitting and growing is
an invariant of `packItem`. -/
theorem packItem_allP (p : Node → Prop) (q : Obj → Prop)
    (hrepl : ∀ x y w l (u r u2 r2 : Node) obj,
      p (.mk x y w l (some u) (some r) obj) → p (.mk x y w l (some u2) (some r2) obj))
    (hsplit : ∀ x y w l (right : Option Node) obj (o : Obj),
      Node.full (.mk x y w l none right obj) = false →
      Node.fits (.mk x y w l none right obj) o →
      p (.mk x y w l none right obj) →
      Node.allP p (Node.add_object (.mk x y w l none right obj) o))
    (hgrow : ∀ t : Node, ∀ o : Obj, q o → t.allP p → (grow t o).allP p)
    (hseed : ∀ o : Obj, q o → Node.allP p (.mk 0 0 o.width o.length none none none)) :
    ∀ (root : Option Node) (o : Obj) (t : Node),
      packItem root o = .ok t → q o → treeAllP p root → t.allP p := by
  intro root o t hpk hq hroot
  cases root with
  | none =>
    rw [packItem] at hpk
    cases heq : insertItem (.mk 0 0 o.width o.length none none none) o with
    | some t2 =>
      rw [heq] at hpk
      simp only [Except.ok.injEq] at hpk
      subst hpk
      exact insertItem_allP p hrepl hsplit _ o t2 heq (hseed o hq)
    | none =>
      rw [heq] at hpk
      exact absurd hpk (by simp)
  | some t0 =>
    rw [packItem] at hpk
    cases heq : insertItem t0 o with
    | some t2 =>
      rw [heq] at hpk
      simp only [Except.ok.injEq] at hpk
      subst hpk
      exact insertItem_allP p hrepl hsplit t0 o t2 heq hroot
    | none =>
      rw [heq] at hpk
      cases heq2 : insertItem (grow t0 o) o with
      | some t2 =>
        rw [heq2] at hpk
        simp only [Except.ok.injEq] at hpk
        subst hpk
        exact insertItem_allP p hrepl hsplit _ o t2 heq2 (hgrow t0 o hq hroot)
      | none =>
        rw [heq2] at hpk
        exact absurd hpk (by simp)

/-- A nodewise invariant established by seeding, splitting and growing is
an invariant of the whole packing loop. -/
theorem packTree_allP (p : Node → Prop) (q : Obj → Prop)
    (hrepl : ∀ x y w l (u r u2 r2 : Node) obj,
      p (.mk x y w l (some u) (some r) obj) → p (.mk x y w l (some u2) (some r2) obj))
    (hsplit : ∀ x y w l (right : Option Node) obj (o : Obj),
      Node.full (.mk x y w l none right obj) = false →
      Node.fits (.mk x y w l none right obj) o →
      p (.mk x y w l none right obj) →
      Node.allP p (Node.add_object (.mk x y w l none right obj) o))
    (hgrow : ∀ t : Node, ∀ o : Obj, q o → t.allP p → (grow t o).allP p)
    (hseed : ∀ o : Obj, q o → Node.allP p (.mk 0 0 o.width o.length none none none)) :
    ∀ (os : List Obj) (root r : Option Node), packTree root os = .ok r →
      (∀ o ∈ os, q o) → treeAllP p root → treeAllP p r := by
  intro os
  induction os with
  | nil =>
    intro root r hpk _ hroot
    rw [packTree] at hpk
    simp only [Except.ok.injEq] at hpk
    subst hpk
    exact hroot
  | cons o os ih =>
    intro root r hpk hq hroot
    rw [packTree] at hpk
    cases heq : packItem root o with
    | ok t =>
      rw [heq] at hpk
      exact ih (some t) r hpk (fun o2 h2 => hq o2 (List.mem_cons_of_mem o h2))
        (packItem_allP p q hrepl hsplit hgrow hseed root o t heq
          (hq o (List.mem_cons_self o os)) hroot)
    | error e =>
      rw [heq] at hpk
      exact absurd hpk (by simp)

/-- Structural induction principle for `Node` phrased through the
optional children. -/
theorem Node.rec_strong (motive : Node → Prop)
    (h : ∀ (x y w l : ℚ) (up right : Option Node) (obj : Option Obj),
      (∀ u, up = some u → motive u) → (∀ r, right = some r → motive r) →
      motive (.mk x y w l up right obj)) : ∀ n, motive n
  | .mk x y w l (some u) (some r) obj =>
    h x y w l (some u) (some r) obj
      (fun u2 hu => by
        cases hu
        exact Node.rec_strong motive h u)
      (fun r2 hr => by
        cases hr
        exact Node.rec_strong motive h r)
  | .mk x y w l (some u) none obj =>
    h x y w l (some u) none obj
      (fun u2 hu => by
        cases hu
        exact Node.rec_strong motive h u)
      (fun r2 hr => by cases hr)
  | .mk x y w l none (some r) obj =>
    h x y w l none (some r) obj
      (fun u2 hu => by cases hu)
      (fun r2 hr => by
        cases hr
        exact Node.rec_strong motive h r)
  | .mk x y w l none none obj =>
    h x y w l none none obj (fun u2 hu => by cases hu) (fun r2 hr => by cases hr)

/-- Concrete run A, step 1: the 5×5 item fills the seeded 5×5 bin. -/
theorem stepA1 : insertItem (.mk 0 0 5 5 none none none) oA1 = some treeA1 := by
  rw [insertItem]
  norm_num [Node.full, Node.fits, Node.object, Node.width, Node.length, Node.add_object,
    Node.x, Node.y, oA1, treeA1]

/-- Concrete run A: `oA2` does not fit the right leftover of `treeA1`. -/
theorem stepA2r : insertItem (.mk 5 0 0 5 none none none) oA2 = none := by
  rw [insertItem]
  norm_num [Node.full, Node.fits, Node.object, Node.width, Node.length, oA2]

/-- Concrete run A: `oA2` does not fit the up leftover of `treeA1`. -/
theorem stepA2u : insertItem (.mk 0 5 5 0 none none none) oA2 = none := by
  rw [insertItem]
  norm_num [Node.full, Node.fits, Node.object, Node.width, Node.length, oA2]

/-- Concrete run A: the search for `oA2` fails on `treeA1`. -/
theorem stepA2 : insertItem treeA1 oA2 = none := by
  show insertItem (.mk 0 0 5 5 (some (.mk 0 5 5 0 none none none))
    (some (.mk 5 0 0 5 none none none)) (some oA1)) oA2 = none
  rw [insertItem, stepA2r, stepA2u]

/-- Concrete run A: the growth for `oA2` goes up (skew 2 beats skew 4). -/
theorem stepAg : grow treeA1 oA2 = treeA1g := by
  rw [grow.eq_def]
  have hc : chooseGrow treeA1.width treeA1.length oA2.width oA2.length = .up := by
    norm_num [chooseGrow, max_def, treeA1, oA2, Node.width, Node.length]
  rw [hc]
  show grow_up treeA1 oA2.width oA2.length = treeA1g
  norm_num [grow_up, treeA1g, treeA1, freshA2, oA2, Node.width, Node.length, max_def]

/-- Concrete run A: `oA2` is placed in the fresh strip. -/
theorem stepA2f : insertItem freshA2 oA2 = some regA2 := by
  show insertItem (.mk 0 5 5 2 none none none) oA2 = some regA2
  rw [insertItem]
  norm_num [Node.full, Node.fits, Node.object, Node.width, Node.length, Node.add_object,
    Node.x, Node.y, oA2, regA2]

/-- Concrete run A: after growing, the search for `oA2` succeeds. -/
theorem stepA3 : insertItem treeA1g oA2 = some treeA2 := by
  show insertItem (.mk 0 0 5 7 (some freshA2) (some treeA1) none) oA2 = some treeA2
  rw [insertItem, stepA2, stepA2f]
  rfl

/-- Concrete run A: `oA3` does not fit the right leftover of `treeA1`. -/
theorem stepA4rr : insertItem (.mk 5 0 0 5 none none none) oA3 = none := by
  rw [insertItem]
  norm_num [Node.full, Node.fits, Node.object, Node.width, Node.length, oA3]

/-- Concrete run A: `oA3` does not fit the up leftover of `treeA1`. -/
theorem stepA4ru : insertItem (.mk 0 5 5 0 none none none) oA3 = none := by
  rw [insertItem]
  norm_num [Node.full, Node.fits, Node.object, Node.width, Node.length, oA3]

/-- Concrete run A: the search for `oA3` fails on the `treeA1` subtree. -/
theorem stepA4r : insertItem treeA1 oA3 = none := by
  show insertItem (.mk 0 0 5 5 (some (.mk 0 5 5 0 none none none))
    (some (.mk 5 0 0 5 none none none)) (some oA1)) oA3 = none
  rw [insertItem, stepA4rr, stepA4ru]

/-- Concrete run A: `oA3` fits the right leftover of the placed `oA2`
(the region overlapping the footprint of `oA2` itself). -/
theorem stepA4ur : insertItem (.mk 2 5 1 2 none none none) oA3 = some regA3 := by
  rw [insertItem]
  norm_num [Node.full, Node.fits, Node.object, Node.width, Node.length, Node.add_object,
    Node.x, Node.y, oA3, regA3]

/-- Concrete run A: the search for `oA3` succeeds inside `regA2`. -/
theorem stepA4u : insertItem regA2 oA3 = some regA2p := by
  show insertItem (.mk 0 5 5 2 (some (.mk 0 7 5 0 none none none))
    (some (.mk 2 5 1 2 none none none)) (some oA2)) oA3 = some regA2p
  rw [insertItem, stepA4ur]
  rfl

/-- Concrete run A: the search for `oA3` succeeds on the whole tree. -/
theorem stepA4 : insertItem treeA2 oA3 = some treeA3 := by
  show insertItem (.mk 0 0 5 7 (some regA2) (some treeA1) none) oA3 = some treeA3
  rw [insertItem, stepA4r, stepA4u]
  rfl

/-- Concrete run A: packing the first item. -/
theorem packItemA1 : packItem none oA1 = .ok treeA1 := by
  rw [packItem]
  simp only [show (oA1.width : ℚ) = 5 from rfl, show (oA1.length : ℚ) = 5 from rfl]
  rw [stepA1]

/-- Concrete run A: packing the second item (with one growth). -/
theorem packItemA2 : packItem (some treeA1) oA2 = .ok treeA2 := by
  rw [packItem, stepA2, stepAg, stepA3]

/-- Concrete run A: packing the third item. -/
theorem packItemA3 : packItem (some treeA2) oA3 = .ok treeA3 := by
  rw [packItem, stepA4]

/-- Concrete run A: the whole three-item pack succeeds, producing
`treeA3`. -/
theorem packA : packTree none [oA1, oA2, oA3] = .ok (some treeA3) := by
  simp only [packTree, packItemA1, packItemA2, packItemA3]

/-- Concrete run A: the arrangement calls at offset `(0, 0)`. -/
theorem arrangeA : arrangeCalls (some treeA3) 0 0 = [(2, 0, 5), (3, 2, 5), (1, 0, 0)] := by
  norm_num [arrangeCalls, translateCalls, treeA3, regA2p, regA3, treeA1, oA1, oA2, oA3]

/-- Concrete run B: the zero-width item is accepted by the fit test and
placed. -/
theorem stepB : insertItem (.mk 0 0 0 5 none none none) oB = some treeB := by
  rw [insertItem]
  norm_num [Node.full, Node.fits, Node.object, Node.width, Node.length, Node.add_object,
    Node.x, Node.y, oB, treeB]

/-- Concrete run B: packing the zero-width item succeeds. -/
theorem packItemB : packItem none oB = .ok treeB := by
  rw [packItem]
  simp only [show (oB.width : ℚ) = 0 from rfl, show (oB.length : ℚ) = 5 from rfl]
  rw [stepB]

/-- Concrete run B: the whole pack of the invalid item succeeds. -/
theorem packB : packTree none [oB] = .ok (some treeB) := by
  simp only [packTree, packItemB]

/-- Concrete run B: the arrangement calls at offset `(0, 0)`. -/
theorem arrangeB : arrangeCalls (some treeB) 0 0 = [(1, 0, 0)] := by
  norm_num [arrangeCalls, translateCalls, treeB, oB]

/-- Concrete run A end to end: bin `(5, 7)`, three placements. -/
theorem packArrangeA :
    packArrange [oA1, oA2, oA3] 0 0 = .ok ((5, 7), [(2, 0, 5), (3, 2, 5), (1, 0, 0)]) := by
  rw [packArrange, packA]
  show Except.ok (binDims (some treeA3), arrangeCalls (some treeA3) 0 0) = _
  rw [arrangeA]
  norm_num [binDims, treeA3, Node.width, Node.length]

/-- Concrete run B end to end: the zero-width item yields bin `(0, 5)`
and one placement. -/
theorem packArrangeB : packArrange [oB] 0 0 = .ok ((0, 5), [(1, 0, 0)]) := by
  rw [packArrange, packB]
  show Except.ok (binDims (some treeB), arrangeCalls (some treeB) 0 0) = _
  rw [arrangeB]
  norm_num [binDims, treeB, Node.width, Node.length]

/-- C1, counterexample: on the region `(0, 0, 5, 5)` and the item of
width 4 and length 2, the `right` child created by `add_object` is not
the Region `(region.x + item.length, region.y)` with extents
`(region.width − item.length, region.length)` claimed: its width is
`5 − 4 = 1` (shrunk by the item's width), not `5 − 2 = 3` (shrunk by the
item's length). -/
theorem C1_right_child_counterexample :
    Node.right (Node.add_object (.mk 0 0 5 5 none none none) ⟨1, 4, 2⟩) ≠
      some (.mk (0 + 2) 0 (5 - 2) 5 none none none) := by
  rw [Node.add_object]
  norm_num [Node.x, Node.y, Node.width, Node.length, Node.right]

/-- C1, amended: placing an item in a region records the item and
creates exactly the two children
`up = Region((x, y + item.length), (width, length − item.length))` and
`right = Region((x + item.length, y), (width − item.width, length))` —
the `up` child and `right`'s origin are as claimed, but `right`'s width
shrinks by the item's *width*, not its length. -/
theorem C1_split_children (n : Node) (o : Obj) :
    (n.add_object o).object = some o ∧
    (n.add_object o).up =
      some (.mk n.x (n.y + o.length) n.width (n.length - o.length) none none none) ∧
    (n.add_object o).right =
      some (.mk (n.x + o.length) n.y (n.width - o.width) n.length none none none) :=
  ⟨rfl, rfl, rfl⟩

/-- C2: the run `[5×5, 4×2, 1×1]` packs and arranges successfully, yet
the placed rectangles of the two distinct items `oA2` (at `(0, 5)`, size
`4×2`) and `oA3` (at `(2, 5)`, size `1×1`) overlap — the no-overlap
property fails on the code, because `add_object` advances the `right`
child by the item's length while shrinking it by the item's width. -/
theorem C2_overlapping_placements :
    packArrange [oA1, oA2, oA3] 0 0 = .ok ((5, 7), [(2, 0, 5), (3, 2, 5), (1, 0, 0)]) ∧
    oA2.id ≠ oA3.id ∧
    rectsOverlap 0 5 oA2.width oA2.length 2 5 oA3.width oA3.length := by
  refine ⟨packArrangeA, by norm_num [oA2, oA3], ?_⟩
  norm_num [rectsOverlap, oA2, oA3]

/-- C5: an item with zero width (non-positive, hence an InvalidItem per
the spec) is not rejected: `pack()` succeeds, the item is placed, and a
bin `(0, 5)` is produced — the code performs no validation (the header's
`@bug` list documents the missing bounds checks). -/
theorem C5_invalid_item_not_rejected :
    packArrange [oB] 0 0 = .ok ((0, 5), [(1, 0, 0)]) ∧ oB.width ≤ 0 := by
  refine ⟨packArrangeB, ?_⟩
  norm_num [oB]

/-- C8: packing and arranging is a pure function of the ordered item
sequence and the offsets — two runs on the same inputs yield the same
bin dimensions and the same placement calls. -/
theorem C8_deterministic (os : List Obj) (ox oy : ℚ)
    (r1 r2 : Except Unit ((ℚ × ℚ) × List (Nat × ℚ × ℚ)))
    (h1 : packArrange os ox oy = r1) (h2 : packArrange os ox oy = r2) :
    r1 = r2 :=
  h1.symm.trans h2

/-- C8, witness: the three-item run evaluated twice yields the same
result. -/
theorem C8_deterministic_witness :
    packArrange [oA1, oA2, oA3] 0 0 = .ok ((5, 7), [(2, 0, 5), (3, 2, 5), (1, 0, 0)]) ∧
    (Except.ok (((5 : ℚ), (7 : ℚ)), [((2 : Nat), (0 : ℚ), (5 : ℚ)), (3, 2, 5), (1, 0, 0)]) :
      Except Unit ((ℚ × ℚ) × List (Nat × ℚ × ℚ))) =
      .ok ((5, 7), [(2, 0, 5), (3, 2, 5), (1, 0, 0)]) :=
  ⟨packArrangeA, C8_deterministic [oA1, oA2, oA3] 0 0 _ _ packArrangeA packArrangeA⟩

/-- C9: packing the empty sequence yields the empty tree and bin
`(0, 0)`, and arranging it emits no `place` calls, for any offsets. -/
theorem C9_empty_pack (ox oy : ℚ) :
    packTree none [] = .ok none ∧ binDims none = (0, 0) ∧ arrangeCalls none ox oy = [] :=
  ⟨rfl, rfl, rfl⟩

/-- C6: the chosen growth minimizes the skew `|new_width − new_length|`
over the two simulated candidates, and on a tie grows the currently
smaller axis (width smaller → `grow_right`, length smaller →
`grow_up`). -/
theorem C6_growth_heuristic (t : Node) (o : Obj) :
    (|(grow t o).width - (grow t o).length| ≤
      |(grow_up t o.width o.length).width - (grow_up t o.width o.length).length| ∧
     |(grow t o).width - (grow t o).length| ≤
      |(grow_right t o.width o.length).width - (grow_right t o.width o.length).length|) ∧
    (|(grow_up t o.width o.length).width - (grow_up t o.width o.length).length| =
      |(grow_right t o.width o.length).width - (grow_right t o.width o.length).length| →
     (t.width < t.length → grow t o = grow_right t o.width o.length) ∧
     (t.length < t.width → grow t o = grow_up t o.width o.length)) := by
  have huw : (grow_up t o.width o.length).width = max t.width o.width := rfl
  have hul : (grow_up t o.width o.length).length = t.length + o.length := rfl
  have hrw : (grow_right t o.width o.length).width = t.width + o.width := rfl
  have hrl : (grow_right t o.width o.length).length = max t.length o.length := rfl
  rw [grow.eq_def]
  simp only [chooseGrow, huw, hul, hrw, hrl]
  split_ifs with h1 h2 h3
  · exact ⟨⟨le_refl _, le_of_lt h1⟩, fun heq => absurd h1 (by rw [heq]; exact lt_irrefl _)⟩
  · exact ⟨⟨le_of_lt h2, le_refl _⟩, fun heq => absurd h2 (by rw [heq]; exact lt_irrefl _)⟩
  · have heq : |max t.width o.width - (t.length + o.length)| =
        |t.width + o.width - max t.length o.length| := le_antisymm (not_lt.mp h2) (not_lt.mp h1)
    exact ⟨⟨heq.ge, le_refl _⟩, fun _ => ⟨fun _ => rfl, fun hlt => absurd hlt (lt_asymm h3)⟩⟩
  · have heq : |max t.width o.width - (t.length + o.length)| =
        |t.width + o.width - max t.length o.length| := le_antisymm (not_lt.mp h2) (not_lt.mp h1)
    exact ⟨⟨le_refl _, heq.le⟩, fun _ => ⟨fun hlt => absurd hlt h3, fun _ => rfl⟩⟩

/-- C6, witness: a 4×2 bin grown for a 2×4 item is a tie (both
candidates have skew 2); the length axis is smaller, so the packer grows
up. -/
theorem C6_growth_heuristic_witness :
    |(grow_up (.mk 0 0 4 2 none none none) 2 4).width -
      (grow_up (.mk 0 0 4 2 none none none) 2 4).length| =
      |(grow_right (.mk 0 0 4 2 none none none) 2 4).width -
        (grow_right (.mk 0 0 4 2 none none none) 2 4).length| ∧
    Node.length (.mk 0 0 4 2 none none none) < Node.width (.mk 0 0 4 2 none none none) ∧
    grow (.mk 0 0 4 2 none none none) ⟨1, 2, 4⟩ =
      grow_up (.mk 0 0 4 2 none none none) 2 4 := by
  have he : |(grow_up (.mk 0 0 4 2 none none none) 2 4).width -
      (grow_up (.mk 0 0 4 2 none none none) 2 4).length| =
      |(grow_right (.mk 0 0 4 2 none none none) 2 4).width -
        (grow_right (.mk 0 0 4 2 none none none) 2 4).length| := by
    norm_num [grow_up, grow_right, Node.width, Node.length, max_def]
  have hl : Node.length (.mk 0 0 4 2 none none none) <
      Node.width (.mk 0 0 4 2 none none none) := by
    norm_num [Node.width, Node.length]
  exact ⟨he, hl, ((C6_growth_heuristic (.mk 0 0 4 2 none none none) ⟨1, 2, 4⟩).2 he).2 hl⟩

/-- The head of a nodewise invariant: it holds at the root node. -/
theorem allP_self (p : Node → Prop) : ∀ n, n.allP p → p n
  | .mk x y w l up right obj, h => by
    rw [Node.allP] at h
    exact h.1

/-- A nodewise invariant holds over a freshly split node as soon as it
holds of its three constituents. -/
theorem addObject_allP (p : Node → Prop) (n : Node) (o : Obj)
    (hroot : p (.mk n.x n.y n.width n.length
      (some (.mk n.x (n.y + o.length) n.width (n.length - o.length) none none none))
      (some (.mk (n.x + o.length) n.y (n.width - o.width) n.length none none none))
      (some o)))
    (hup : p (.mk n.x (n.y + o.length) n.width (n.length - o.length) none none none))
    (hright : p (.mk (n.x + o.length) n.y (n.width - o.width) n.length none none none)) :
    (n.add_object o).allP p := by
  rw [Node.add_object, Node.allP]
  refine ⟨hroot, ?_, ?_⟩
  · intro c hc
    simp only [Option.some.injEq] at hc
    subst hc
    exact allP_leafNode p _ _ _ _ hup
  · intro c hc
    simp only [Option.some.injEq] at hc
    subst hc
    exact allP_leafNode p _ _ _ _ hright

/-- C3: after any successful pack, every node of the tree satisfies: an
occupied Region has both children present, and a childless (leaf) Region
is unoccupied. -/
theorem C3_occupied_region_invariant (os : List Obj) (r : Option Node)
    (hpack : packTree none os = .ok r) :
    treeAllP (fun n => occupiedSplit n ∧ (n.leaf = true → n.full = false)) r := by
  refine packTree_allP _ (fun _ => True) ?_ ?_ ?_ ?_ os none r hpack (fun _ _ => trivial)
    trivial
  · intro x y w l u r2 u2 r3 obj h
    simp [occupiedSplit, Node.full, Node.leaf, Node.up, Node.right, Node.object]
  · intro x y w l right obj o hfull hfits hp
    refine addObject_allP _ _ o ?_ ?_ ?_ <;>
      simp [occupiedSplit, Node.full, Node.leaf, Node.up, Node.right, Node.object]
  · intro t o _ ht
    refine grow_allP _ t o ht ?_ ?_ ?_ ?_ <;>
      simp [grow_up, grow_right, occupiedSplit, Node.full, Node.leaf, Node.up, Node.right,
        Node.object]
  · intro o _
    refine allP_leafNode _ _ _ _ _ ?_
    simp [occupiedSplit, Node.full, Node.leaf, Node.up, Node.right, Node.object]

/-- C3, witness: the invariant on the concrete three-item run. -/
theorem C3_occupied_region_invariant_witness :
    packTree none [oA1, oA2, oA3] = .ok (some treeA3) ∧
    treeAllP (fun n => occupiedSplit n ∧ (n.leaf = true → n.full = false)) (some treeA3) :=
  ⟨packA, C3_occupied_region_invariant [oA1, oA2, oA3] (some treeA3) packA⟩

/-- C4: packing items with non-negative extents only ever creates
Regions with non-negative extents — every split is guarded by the fit
test and every growth adds non-negative amounts, so no negative-extent
Region occurs. -/
theorem C4_extents_nonneg (os : List Obj) (r : Option Node)
    (hvalid : ∀ o ∈ os, 0 ≤ o.width ∧ 0 ≤ o.length)
    (hpack : packTree none os = .ok r) :
    treeAllP nonnegExt r := by
  refine packTree_allP nonnegExt (fun o => 0 ≤ o.width ∧ 0 ≤ o.length) ?_ ?_ ?_ ?_
    os none r hpack hvalid trivial
  · intro x y w l u r2 u2 r3 obj h
    simpa [nonnegExt, Node.width, Node.length] using h
  · intro x y w l right obj o hfull hfits hp
    rw [Node.fits] at hfits
    rw [nonnegExt] at hp
    simp only [Node.width, Node.length] at hfits hp
    refine addObject_allP nonnegExt _ o ?_ ?_ ?_ <;>
      simp only [nonnegExt, Node.width, Node.length] <;>
      constructor <;> try linarith [hfits.1, hfits.2, hp.1, hp.2]
  · intro t o hq ht
    obtain ⟨tx, ty, tw, tl, tu, tr, tob⟩ := t
    have hroot := allP_self nonnegExt _ ht
    rw [nonnegExt] at hroot
    simp only [Node.width, Node.length] at hroot
    refine grow_allP nonnegExt _ o ht ?_ ?_ ?_ ?_ <;>
      simp only [grow_up, grow_right, nonnegExt, Node.width, Node.length] <;>
      constructor
    · exact le_trans hroot.1 (le_max_left _ _)
    · linarith [hroot.2, hq.2]
    · exact le_trans hroot.1 (le_max_left _ _)
    · exact hq.2
    · linarith [hroot.1, hq.1]
    · exact le_trans hroot.2 (le_max_left _ _)
    · exact hq.1
    · exact le_trans hroot.2 (le_max_left _ _)
  · intro o hq
    refine allP_leafNode _ _ _ _ _ ?_
    rw [nonnegExt]
    simp only [Node.width, Node.length]
    exact hq

/-- C4, witness: the invariant on the concrete three-item run. -/
theorem C4_extents_nonneg_witness :
    (∀ o ∈ [oA1, oA2, oA3], 0 ≤ o.width ∧ 0 ≤ o.length) ∧
    packTree none [oA1, oA2, oA3] = .ok (some treeA3) ∧
    treeAllP nonnegExt (some treeA3) := by
  have hv : ∀ o ∈ [oA1, oA2, oA3], 0 ≤ o.width ∧ 0 ≤ o.length := by
    intro o ho
    simp only [List.mem_cons, List.not_mem_nil, or_false] at ho
    rcases ho with h | h | h <;> subst h <;> norm_num [oA1, oA2, oA3]
  exact ⟨hv, packA, C4_extents_nonneg [oA1, oA2, oA3] (some treeA3) hv packA⟩

/-- Children stay in pairs when an occupied node's subtrees are
replaced. -/
theorem paired_repl (x y w l : ℚ) (u r u2 r2 : Node) (obj : Option Obj)
    (_ : paired (.mk x y w l (some u) (some r) obj)) :
    paired (.mk x y w l (some u2) (some r2) obj) := by
  simp [paired, Node.up, Node.right]

/-- Splitting a node creates both children, so pairing is preserved. -/
theorem paired_split (x y w l : ℚ) (right : Option Node) (obj : Option Obj) (o : Obj)
    (_ : Node.full (.mk x y w l none right obj) = false)
    (_ : Node.fits (.mk x y w l none right obj) o)
    (_ : paired (.mk x y w l none right obj)) :
    Node.allP paired (Node.add_object (.mk x y w l none right obj) o) :=
  addObject_allP paired _ o (by simp [paired, Node.up, Node.right])
    (by simp [paired, Node.up, Node.right]) (by simp [paired, Node.up, Node.right])

/-- Growth creates a root with both children and a childless fresh
region, so pairing is preserved. -/
theorem paired_grow (t : Node) (o : Obj) (ht : t.allP paired) : (grow t o).allP paired :=
  grow_allP paired t o ht (by simp [grow_up, paired, Node.up, Node.right])
    (by simp [paired, Node.up, Node.right])
    (by simp [grow_right, paired, Node.up, Node.right])
    (by simp [paired, Node.up, Node.right])

/-- A seeded root is childless, so paired. -/
theorem paired_seed (o : Obj) :
    Node.allP paired (.mk 0 0 o.width o.length none none none) :=
  allP_leafNode paired _ _ _ _ (by simp [paired, Node.up, Node.right])

/-- The pairing of children is an invariant of the packing loop. -/
theorem packTree_paired (os : List Obj) (root r : Option Node)
    (hpack : packTree root os = .ok r) (hroot : treeAllP paired root) :
    treeAllP paired r :=
  packTree_allP paired (fun _ => True) paired_repl paired_split
    (fun t o _ ht => paired_grow t o ht) (fun o _ => paired_seed o)
    os root r hpack (fun _ _ => trivial) hroot

/-- C10: after any successful pack, every node has its `up` child null
exactly when its `right` child is null, so the leaf test (which inspects
only `up`) coincides with having no children at all. -/
theorem C10_children_created_in_pairs (os : List Obj) (r : Option Node)
    (hpack : packTree none os = .ok r) :
    treeAllP paired r ∧
    ∀ n : Node, paired n → (n.leaf = true ↔ n.up = none ∧ n.right = none) := by
  constructor
  · exact packTree_paired os none r hpack trivial
  · intro n hn
    rw [paired] at hn
    rw [Node.leaf, Option.isNone_iff_eq_none]
    constructor
    · intro h
      exact ⟨h, hn.mp h⟩
    · intro h
      exact h.1

/-- C10, witness: the pairing invariant on the concrete three-item
run. -/
theorem C10_children_created_in_pairs_witness :
    packTree none [oA1, oA2, oA3] = .ok (some treeA3) ∧
    treeAllP paired (some treeA3) :=
  ⟨packA, (C10_children_created_in_pairs [oA1, oA2, oA3] (some treeA3) packA).1⟩

/-- Unfolding of `translateCalls` with the children and object
abstract. -/
theorem translateCalls_mk (x y w l : ℚ) (up right : Option Node) (obj : Option Obj)
    (ox oy : ℚ) :
    translateCalls (.mk x y w l up right obj) ox oy =
      (match obj with
       | some o2 => [(o2.id, x + ox, y + oy)]
       | none => []) ++
      ((match up with
        | some u => translateCalls u ox oy
        | none => []) ++
       (match right with
        | some r => translateCalls r ox oy
        | none => [])) := by
  cases obj <;> cases up <;> cases right <;> rfl

/-- Unfolding of `Node.subnodes` with the children abstract. -/
theorem subnodes_mk (x y w l : ℚ) (up right : Option Node) (obj : Option Obj) :
    Node.subnodes (.mk x y w l up right obj) =
      .mk x y w l up right obj ::
      ((match up with
        | some u => u.subnodes
        | none => []) ++
       (match right with
        | some r => r.subnodes
        | none => [])) := by
  cases up <;> cases right <;> rfl

/-- Growing does not add or move any placed object: the `place` calls of
a grown tree are those of the old tree. -/
theorem translateCalls_grow (t : Node) (o : Obj) (ox oy : ℚ) :
    translateCalls (grow t o) ox oy = translateCalls t ox oy := by
  rw [grow.eq_def]
  set d := chooseGrow t.width t.length o.width o.length with hd
  clear_value d
  cases d with
  | up =>
    show translateCalls (grow_up t o.width o.length) ox oy = _
    rw [grow_up]
    simp [translateCalls_mk]
  | right =>
    show translateCalls (grow_right t o.width o.length) ox oy = _
    rw [grow_right]
    simp [translateCalls_mk]

/-- Search-and-place adds exactly one `place` call, for the inserted
object, leaving every other call count unchanged. -/
theorem translateCalls_insertItem (o : Obj) (ox oy : ℚ) :
    ∀ (n t2 : Node), insertItem n o = some t2 → n.allP paired →
      ∀ k, List.count k ((translateCalls t2 ox oy).map Prod.fst) =
        List.count k ((translateCalls n ox oy).map Prod.fst) +
          (if o.id = k then 1 else 0)
  | .mk x y w l (some u) (some r) obj, t2, hins, hall, k => by
    rw [insertItem] at hins
    rw [Node.allP] at hall
    cases hr2 : insertItem r o with
    | some r2 =>
      rw [hr2] at hins
      simp only [Option.some.injEq] at hins
      subst hins
      have ih := translateCalls_insertItem o ox oy r r2 hr2 (hall.2.2 r rfl) k
      rw [translateCalls_mk, translateCalls_mk]
      simp only [List.map_append, List.count_append, ih]
      omega
    | none =>
      rw [hr2] at hins
      cases hu2 : insertItem u o with
      | some u2 =>
        rw [hu2] at hins
        simp only [Option.some.injEq] at hins
        subst hins
        have ih := translateCalls_insertItem o ox oy u u2 hu2 (hall.2.1 u rfl) k
        rw [translateCalls_mk, translateCalls_mk]
        simp only [List.map_append, List.count_append, ih]
        omega
      | none =>
        rw [hu2] at hins
        exact absurd hins (by simp)
  | .mk x y w l none right obj, t2, hins, hall, k => by
    have hpair := allP_self paired _ hall
    rw [paired] at hpair
    have hr : right = none := hpair.mp rfl
    subst hr
    rw [insertItem] at hins
    by_cases hc : Node.full (.mk x y w l none none obj) = false ∧
        Node.fits (.mk x y w l none none obj) o
    · rw [if_pos hc] at hins
      simp only [Option.some.injEq] at hins
      subst hins
      have hobj : obj = none := by
        have := hc.1
        rw [Node.full] at this
        simp only [Node.object] at this
        cases obj with
        | none => rfl
        | some o2 => simp at this
      subst hobj
      rw [Node.add_object, translateCalls_mk, translateCalls_mk]
      simp only [Node.x, Node.y, Node.object, Node.up, Node.right, Node.width, Node.length]
      rw [translateCalls_mk, translateCalls_mk]
      simp [List.count_cons]
    · rw [if_neg hc] at hins
      exact absurd hins (by simp)
  | .mk _ _ _ _ (some _) none _, t2, hins, _, k => by
    rw [insertItem] at hins
    exact absurd hins (by simp)

/-- Packing one item adds exactly one `place` call, for that item. -/
theorem translateCalls_packItem (o : Obj) (ox oy : ℚ) (root : Option Node) (t : Node)
    (hpk : packItem root o = .ok t) (hpaired : treeAllP paired root) :
    ∀ k, List.count k ((translateCalls t ox oy).map Prod.fst) =
      List.count k ((arrangeCalls root ox oy).map Prod.fst) +
        (if o.id = k then 1 else 0) := by
  intro k
  cases root with
  | none =>
    rw [packItem] at hpk
    cases heq : insertItem (.mk 0 0 o.width o.length none none none) o with
    | some t2 =>
      rw [heq] at hpk
      simp only [Except.ok.injEq] at hpk
      subst hpk
      have h := translateCalls_insertItem o ox oy _ t2 heq (paired_seed o) k
      rw [h, translateCalls_mk]
      rw [arrangeCalls]
      simp
    | none =>
      rw [heq] at hpk
      exact absurd hpk (by simp)
  | some t0 =>
    rw [packItem] at hpk
    rw [arrangeCalls]
    cases heq : insertItem t0 o with
    | some t2 =>
      rw [heq] at hpk
      simp only [Except.ok.injEq] at hpk
      subst hpk
      exact translateCalls_insertItem o ox oy t0 t2 heq hpaired k
    | none =>
      rw [heq] at hpk
      cases heq2 : insertItem (grow t0 o) o with
      | some t2 =>
        rw [heq2] at hpk
        simp only [Except.ok.injEq] at hpk
        subst hpk
        have h := translateCalls_insertItem o ox oy _ t2 heq2 (paired_grow t0 o hpaired) k
        rw [h, translateCalls_grow]
      | none =>
        rw [heq2] at hpk
        exact absurd hpk (by simp)

/-- The whole packing loop adds one `place` call per input item: the
final call counts are the input id counts. -/
theorem translateCalls_packTree (ox oy : ℚ) :
    ∀ (os : List Obj) (root r : Option Node), packTree root os = .ok r →
      treeAllP paired root →
      ∀ k, List.count k ((arrangeCalls r ox oy).map Prod.fst) =
        List.count k ((arrangeCalls root ox oy).map Prod.fst) +
          List.count k (os.map Obj.id) := by
  intro os
  induction os with
  | nil =>
    intro root r hpk _ k
    rw [packTree] at hpk
    simp only [Except.ok.injEq] at hpk
    subst hpk
    simp
  | cons o os ih =>
    intro root r hpk hpaired k
    rw [packTree] at hpk
    cases heq : packItem root o with
    | ok t =>
      rw [heq] at hpk
      have hpt : treeAllP paired (some t) :=
        packItem_allP paired (fun _ => True) paired_repl paired_split
          (fun t2 o2 _ ht2 => paired_grow t2 o2 ht2) (fun o2 _ => paired_seed o2)
          root o t heq trivial hpaired
      have h1 := ih (some t) r hpk hpt k
      have h2 := translateCalls_packItem o ox oy root t heq hpaired k
      rw [arrangeCalls] at h1
      rw [h1, h2]
      simp only [List.map_cons, List.count_cons]
      have : (if o.id == k then 1 else 0) = (if o.id = k then 1 else 0) := by
        simp [beq_iff_eq]
      omega
    | error e =>
      rw [heq] at hpk
      exact absurd hpk (by simp)

/-- Every `place` call emitted by the traversal comes from an occupied
node of the tree, with arguments `(node.x + ox, node.y + oy)`. -/
theorem translateCalls_mem (ox oy : ℚ) (t : Node) :
    ∀ c ∈ translateCalls t ox oy, ∃ n, n ∈ t.subnodes ∧
      ∃ o2, n.object = some o2 ∧ c = (o2.id, n.x + ox, n.y + oy) := by
  induction t using Node.rec_strong with
  | h x y w l up right obj ihu ihr =>
    intro c hc
    rw [translateCalls_mk] at hc
    rcases List.mem_append.mp hc with hc0 | hc12
    · cases obj with
      | none => simp at hc0
      | some o2 =>
        simp only [List.mem_singleton] at hc0
        subst hc0
        refine ⟨.mk x y w l up right (some o2), ?_, o2, rfl, ?_⟩
        · rw [subnodes_mk]
          exact List.mem_cons_self _ _
        · simp [Node.x, Node.y]
    · rcases List.mem_append.mp hc12 with hcu | hcr
      · cases up with
        | none => simp at hcu
        | some u =>
          obtain ⟨n, hn, o2, ho2, hceq⟩ := ihu u rfl c hcu
          refine ⟨n, ?_, o2, ho2, hceq⟩
          rw [subnodes_mk]
          exact List.mem_cons_of_mem _ (List.mem_append_left _ hn)
      · cases right with
        | none => simp at hcr
        | some r =>
          obtain ⟨n, hn, o2, ho2, hceq⟩ := ihr r rfl c hcr
          refine ⟨n, ?_, o2, ho2, hceq⟩
          rw [subnodes_mk]
          exact List.mem_cons_of_mem _ (List.mem_append_right _ hn)

/-- C7: after a successful pack of items with distinct identities,
arranging emits exactly one `place` call per packed item (none are
emitted during packing, which only builds the tree), and every call
originates at the occupied Region holding the item, with arguments
`(region.x + offset_x, region.y + offset_y)`. -/
theorem C7_single_place_call (os : List Obj) (r : Option Node) (ox oy : ℚ)
    (hids : (os.map Obj.id).Nodup)
    (hpack : packTree none os = .ok r) :
    (∀ o ∈ os, List.count o.id ((arrangeCalls r ox oy).map Prod.fst) = 1) ∧
    (∀ c ∈ arrangeCalls r ox oy, ∃ t, r = some t ∧ ∃ n, n ∈ t.subnodes ∧
      ∃ o2, n.object = some o2 ∧ c = (o2.id, n.x + ox, n.y + oy)) := by
  constructor
  · intro o ho
    have h := translateCalls_packTree ox oy os none r hpack trivial o.id
    rw [h]
    have hm : o.id ∈ os.map Obj.id := List.mem_map_of_mem Obj.id ho
    rw [List.count_eq_one_of_mem hids hm]
    rw [arrangeCalls]
    simp
  · intro c hc
    cases r with
    | none =>
      rw [arrangeCalls] at hc
      simp at hc
    | some t =>
      rw [arrangeCalls] at hc
      exact ⟨t, rfl, translateCalls_mem ox oy t c hc⟩

/-- C7, witness: in the three-item run each of the ids 1, 2, 3 receives
exactly one `place` call. -/
theorem C7_single_place_call_witness :
    ([oA1, oA2, oA3].map Obj.id).Nodup ∧
    packTree none [oA1, oA2, oA3] = .ok (some treeA3) ∧
    (∀ o ∈ [oA1, oA2, oA3],
      List.count o.id ((arrangeCalls (some treeA3) 0 0).map Prod.fst) = 1) := by
  have hids : ([oA1, oA2, oA3].map Obj.id).Nodup := by
    rw [show [oA1, oA2, oA3].map Obj.id = [1, 2, 3] from rfl]
    decide
  exact ⟨hids, packA,
    (C7_single_place_call [oA1, oA2, oA3] (some treeA3) 0 0 hids packA).1⟩

end SSE
